import Mathlib

/-!
Verification development for the madokami Aidoku source's filename
chapter/volume parsing engine (src/rust/en.madokami/src/helper.rs and
src/rust/en.madokami/src/lib.rs).

Modelling conventions:
* Rust strings are modelled as `List Char` (`RStr`).  The source operates
  on UTF-8 bytes in a few places (`url_decode`, slicing); on ASCII data,
  which all numeric/marker scanning in the source is restricted to, byte
  positions and char positions coincide, and the model works char-wise.
* `str::to_lowercase` is modelled as ASCII case folding (`asciiToLower`),
  which agrees with Rust on ASCII characters.
* `f32` values produced by the parser are modelled as exact rationals
  (`ℚ`); every number the parser builds comes from short digit strings,
  for which rational and `f32` semantics agree.
* `str::parse::<f32>` is modelled by `parseFloat`, restricted to the
  digit/dot candidate strings the parser constructs (no signs, exponents
  or `inf`/`nan` forms can occur in a candidate).
* Rust string slicing panics when an index is out of bounds; the guarded
  parser `parse_chapter_info?` models every slice with a bounds-checked
  `sliceFrom`/`sliceTo` returning `Option`, so `none` models a panic.
* The exclusion list is bundled from `exclusions.txt` at compile time in
  the source; its contents are passed here as an explicit parameter
  `exclusions`, as the spec's design notes direct.
-/

/-- Rust `String`/`&str`, modelled as a list of characters. -/
abbrev RStr := List Char

/-- ASCII whitespace recognised by the model of `str::trim`. -/
def isWS (c : Char) : Bool := c = ' ' ∨ c = '\t' ∨ c = '\n' ∨ c = '\r'

/-- Model of `str::trim_start` (ASCII whitespace). -/
def trimL (s : RStr) : RStr := s.dropWhile isWS

/-- Model of trailing-whitespace removal. -/
def trimR (s : RStr) : RStr := (s.reverse.dropWhile isWS).reverse

/-- Model of `str::trim`. -/
def trim (s : RStr) : RStr := trimR (trimL s)

/-- ASCII lowercasing of one character (codes 65-90 are mapped to 97-122,
everything else passes through), the model of `to_lowercase` used by the
source, which only ever inspects ASCII letters and digits. -/
def asciiToLower (c : Char) : Char :=
  if 65 ≤ c.toNat ∧ c.toNat ≤ 90 then Char.ofNat (c.toNat + 32) else c

/-- `hex_val` from helper.rs: the value of one hexadecimal digit. -/
def hex_val (c : Char) : Option Nat :=
  if '0' ≤ c ∧ c ≤ '9' then some (c.toNat - ('0').toNat)
  else if 'a' ≤ c ∧ c ≤ 'f' then some (c.toNat - ('a').toNat + 10)
  else if 'A' ≤ c ∧ c ≤ 'F' then some (c.toNat - ('A').toNat + 10)
  else none

/-- `url_decode` from helper.rs.  A `%` that is followed by two
characters both of which are hex digits decodes to the encoded byte;
otherwise the character at the cursor is emitted verbatim and scanning
continues with the next character.  The Rust guard `i + 2 < bytes.len()`
is exactly the requirement that two characters follow the `%`. -/
def url_decode : RStr → RStr
  | [] => []
  | '%' :: c1 :: c2 :: rest2 =>
    match hex_val c1, hex_val c2 with
    | some h1, some h2 => Char.ofNat (16 * h1 + h2) :: url_decode rest2
    | _, _ => '%' :: url_decode (c1 :: c2 :: rest2)
  | c :: rest => c :: url_decode rest

/-- The known-extension table of `clean_filename` (helper.rs), in source
order. -/
def EXTENSIONS : List RStr :=
  [(".cbz").toList, (".zip").toList, (".cbr").toList, (".rar").toList,
   (".7z").toList, (".pdf").toList, (".epub").toList, (".png").toList,
   (".jpg").toList, (".jpeg").toList, (".gif").toList, (".xml").toList,
   (".txt").toList]

/-- `clean_filename` from helper.rs: the first extension of `EXTENSIONS`
that is a suffix of the lowercased filename is cut off the original. -/
def clean_filename (filename : RStr) : RStr :=
  match EXTENSIONS.find? (fun ext => ext.isSuffixOf (filename.map asciiToLower)) with
  | some ext => filename.take (filename.length - ext.length)
  | none => filename

/-- `pat` occurs in `s` at position `p`. -/
def occursAt (pat s : RStr) (p : Nat) : Bool := pat.isPrefixOf (s.drop p)

/-- Model of `str::find` for a substring pattern: the least position at
which the pattern occurs. -/
def findSub (s pat : RStr) : Option Nat :=
  (List.range (s.length + 1)).find? (occursAt pat s)

/-- Model of `str::rfind` for a substring pattern: the greatest position
at which the pattern occurs. -/
def rfindSub (s pat : RStr) : Option Nat :=
  (List.range (s.length + 1)).reverse.find? (occursAt pat s)

/-- Model of `str::contains` for a substring pattern. -/
def containsSub (s pat : RStr) : Bool := (findSub s pat).isSome

/-- Bounds-checked model of the Rust slice `s[i..]`; `none` models the
panic on an out-of-range index. -/
def sliceFrom (s : RStr) (i : Nat) : Option RStr :=
  if i ≤ s.length then some (s.drop i) else none

/-- Bounds-checked model of the Rust slice `s[..i]`; `none` models the
panic on an out-of-range index. -/
def sliceTo (s : RStr) (i : Nat) : Option RStr :=
  if i ≤ s.length then some (s.take i) else none

/-- The `take_while(|c| c.is_ascii_digit())` collection the parser uses
to build numeric candidates. -/
def takeDigits (s : RStr) : RStr := s.takeWhile Char.isDigit

/-- Numeric value of a digit string. -/
def digitsToNat (s : RStr) : Nat := s.foldl (fun a c => 10 * a + (c.toNat - 48)) 0

/-- Model of `str::parse::<f32>` on the digit/dot candidate strings the
parser constructs: an optional integer part, an optional single dot, an
optional fractional part, with at least one digit overall.  Exact
rational arithmetic stands in for `f32`. -/
def parseFloat (s : RStr) : Option ℚ :=
  match s.dropWhile Char.isDigit with
  | [] =>
    if s.takeWhile Char.isDigit = [] then none
    else some (digitsToNat (s.takeWhile Char.isDigit))
  | '.' :: frac =>
    if frac.all Char.isDigit ∧ (s.takeWhile Char.isDigit ≠ [] ∨ frac ≠ []) then
      some ((digitsToNat (s.takeWhile Char.isDigit) : ℚ) +
        (digitsToNat frac : ℚ) / ((10 : ℚ) ^ frac.length))
    else none
  | _ => none

/-- `eq_ignore_ascii_case` used by the exclusion check. -/
def eqIgnoreAsciiCase (a b : RStr) : Bool := a.map asciiToLower = b.map asciiToLower

/-- Model of `str::replacen(pat, repl, 1)`: replace the first occurrence
of `pat` (always nonempty at its call site) by `repl`. -/
def replaceFirst (pat repl : RStr) : RStr → RStr
  | [] => []
  | c :: rest =>
    if pat ≠ [] ∧ pat.isPrefixOf (c :: rest) then repl ++ (c :: rest).drop pat.length
    else c :: replaceFirst pat repl rest

/-- Fuelled worker for `removeAll`; the fuel bounds the scan (each step
consumes at least one character, so `s.length` fuel is always enough). -/
def removeAllFuel (pat : RStr) : Nat → RStr → RStr
  | 0, s => s
  | _ + 1, [] => []
  | fuel + 1, c :: rest =>
    if pat ≠ [] ∧ pat.isPrefixOf (c :: rest) then
      removeAllFuel pat fuel ((c :: rest).drop pat.length)
    else c :: removeAllFuel pat fuel rest

/-- Model of `str::replace(pat, "")`: delete every (non-overlapping,
leftmost-first) occurrence of `pat`. -/
def removeAll (pat s : RStr) : RStr := removeAllFuel pat s.length s

/-- The while-loop body of `clean_excluded_numbers` (helper.rs lines
148-182), scanning the title for digit runs.  `i` is the scan cursor and
`cleaned` the accumulating filename; the fuel bounds the iteration count
(the cursor advances by at least one per step, so `length + 1` fuel is
always enough). -/
def cenLoop (titleChars : List Char) : Nat → Nat → RStr → RStr
  | 0, _, cleaned => cleaned
  | fuel + 1, i, cleaned =>
    match titleChars.get? i with
    | none => cleaned
    | some ci =>
      if ci.isDigit then
        let number := (titleChars.drop i).takeWhile Char.isDigit
        let inew := i + number.length
        let contextStart := i - 3
        let contextEnd := min (inew + 3) titleChars.length
        let pattern := (titleChars.drop contextStart).take (contextEnd - contextStart)
        let cleaned2 :=
          match findSub cleaned pattern with
          | some pos =>
            let beforeChar : Option Char := if pos > 0 then cleaned.get? (pos - 1) else none
            if beforeChar ≠ some 'v' ∧ beforeChar ≠ some 'c' then
              replaceFirst pattern (removeAll number pattern) cleaned
            else cleaned
          | none => cleaned
        cenLoop titleChars fuel (inew + 1) cleaned2
      else cenLoop titleChars fuel (i + 1) cleaned

/-- `clean_excluded_numbers` from helper.rs, with the contents of the
bundled `exclusions.txt` passed explicitly as `exclusions`.  When the
trimmed, lowercased title is on the list (case-insensitive exact match),
digit runs of the title — taken with up to three characters of
surrounding context — are deleted from the lowercased filename, unless
the context is found right after a 'v' or 'c'. -/
def clean_excluded_numbers (exclusions : List RStr) (filename manga_title : RStr) : RStr :=
  if ¬ exclusions.any
      (fun ex => eqIgnoreAsciiCase ex ((trim manga_title).map asciiToLower)) then filename
  else cenLoop ((trim manga_title).map asciiToLower)
    (((trim manga_title).map asciiToLower).length + 1) 0 (filename.map asciiToLower)

/-- The record produced by the helper.rs parser. -/
structure ChapterInfo where
  chapter : ℚ := 0
  volume : ℚ := 0
deriving DecidableEq, Repr

/-- The `" ("`-truncation step of `parse_chapter_info` (helper.rs lines
199-204), with the slice bounds-checked. -/
def truncated? (cleanedForParsing : RStr) : Option RStr :=
  match findSub cleanedForParsing ([' ', '(']) with
  | some pos => (sliceTo cleanedForParsing pos).map trim
  | none => some (trim cleanedForParsing)

/-- The volume-extraction block of `parse_chapter_info` (helper.rs lines
211-234): the parenthesized `"(v"` form is tried first, else the bare
`" v"` form; the digit run after the marker is parsed, and an absent or
unparsable run leaves the volume at `0`. -/
def volume? (truncated : RStr) : Option ℚ :=
  match findSub truncated (['(', 'v']) with
  | some start =>
    (sliceFrom truncated (start + 2)).map (fun after =>
      let volStr := takeDigits after
      if volStr ≠ [] then
        match parseFloat volStr with
        | some vol => vol
        | none => 0
      else 0)
  | none =>
    match findSub truncated ([' ', 'v']) with
    | some pos =>
      (sliceFrom truncated (pos + 2)).map (fun after =>
        let volStr := takeDigits after
        if volStr ≠ [] then
          match parseFloat volStr with
          | some vol => vol
          | none => 0
        else 0)
    | none => some 0

/-- The chapter-section isolation of `parse_chapter_info` (helper.rs
lines 236-241): the substring after the last `" - "`, or the whole
string. -/
def chapterSection? (truncated : RStr) : Option RStr :=
  match rfindSub truncated ([' ', '-', ' ']) with
  | some pos => (sliceFrom truncated (pos + 3)).map trim
  | none => some truncated

/-- The volume-marker stripping of `parse_chapter_info` (helper.rs lines
243-268): when a volume was found and the chapter section carries a
final `" v"` run equal to it (tolerance 0.001), that marker suffix is
cut off. -/
def sectionClean? (volume : ℚ) (chapterSection : RStr) : Option RStr :=
  if volume ≠ 0 then
    match rfindSub chapterSection ([' ', 'v']) with
    | some vPos =>
      match sliceFrom chapterSection (vPos + 2) with
      | some after =>
        let candidate := takeDigits after
        if candidate ≠ [] then
          match parseFloat candidate with
          | some num =>
            if |num - volume| < 1 / 1000 then (sliceTo chapterSection vPos).map trim
            else some chapterSection
          | none => some chapterSection
        else some chapterSection
      | none => none
    | none => some chapterSection
  else some chapterSection

/-- Phase (C) of `parse_chapter_info` (helper.rs lines 304-316): when
there is no `" - "` and the truncated name starts with the title, the
leading digit run of the remainder is the chapter; otherwise the record
accumulated so far is returned. -/
def phaseC? (truncated cleanManga : RStr) (volume : ℚ) : Option ChapterInfo :=
  if ¬ containsSub truncated ([' ', '-', ' ']) ∧ cleanManga.isPrefixOf truncated then
    match sliceFrom truncated cleanManga.length with
    | some rem =>
      let remaining := trim rem
      let digits := takeDigits remaining
      if digits ≠ [] then
        match parseFloat digits with
        | some num => some { chapter := num, volume := volume }
        | none => some { chapter := 0, volume := volume }
      else some { chapter := 0, volume := volume }
    | none => none
  else some { chapter := 0, volume := volume }

/-- Phase (B) of `parse_chapter_info` (helper.rs lines 284-302),
falling through to phase (C): the trailing digit run of the cleaned
chapter section is the chapter, unless it merely repeats the volume in a
string without `" - "`. -/
def phaseBC? (truncated cleanManga : RStr) (volume : ℚ) (chapterSectionClean : RStr) :
    Option ChapterInfo :=
  let trailing := (chapterSectionClean.reverse.takeWhile Char.isDigit).reverse
  if trailing ≠ [] then
    match parseFloat trailing with
    | some num =>
      if ¬ containsSub truncated ([' ', '-', ' ']) ∧ volume ≠ 0 ∧ |num - volume| < 1 / 1000 then
        some { chapter := 0, volume := volume }
      else some { chapter := num, volume := volume }
    | none => phaseC? truncated cleanManga volume
  else phaseC? truncated cleanManga volume

/-- Phase (A) of `parse_chapter_info` (helper.rs lines 270-282), falling
through to phases (B) and (C): a chapter section starting with 'c' has
its following digit run taken as the chapter. -/
def phaseA? (truncated cleanManga : RStr) (volume : ℚ) (chapterSectionClean : RStr) :
    Option ChapterInfo :=
  if chapterSectionClean.head? = some 'c' then
    match sliceFrom chapterSectionClean 1 with
    | some rest =>
      let afterC := trimL rest
      let digits := takeDigits afterC
      if digits ≠ [] then
        match parseFloat digits with
        | some num => some { chapter := num, volume := volume }
        | none => phaseBC? truncated cleanManga volume chapterSectionClean
      else phaseBC? truncated cleanManga volume chapterSectionClean
    | none => none
  else phaseBC? truncated cleanManga volume chapterSectionClean

/-- `parse_chapter_info` from helper.rs, with every Rust string slice
bounds-checked: a `none` result models a panic, and an unparsable
numeric candidate falls through to the next phase by construction. -/
def parseCore? (cleanedForParsing cleanManga : RStr) : Option ChapterInfo :=
  match truncated? cleanedForParsing with
  | none => none
  | some truncated =>
    if truncated = trim cleanManga then some {}
    else
      match volume? truncated with
      | none => none
      | some volume =>
        match chapterSection? truncated with
        | none => none
        | some chapterSection =>
          match sectionClean? volume chapterSection with
          | none => none
          | some chapterSectionClean =>
            phaseA? truncated cleanManga volume chapterSectionClean

/-- `parse_chapter_info` from helper.rs assembled from the stage
functions above: `full` is the decoded, lowercased, extension-stripped
filename, `cleanManga` the lowercased title, and `parseCore?` runs on
the exclusion-cleaned filename. -/
def parse_chapter_info? (exclusions : List RStr) (filename manga_title : RStr) :
    Option ChapterInfo :=
  parseCore?
    (clean_excluded_numbers exclusions
      (clean_filename ((url_decode filename).map asciiToLower)) manga_title)
    (manga_title.map asciiToLower)

/-- The total version of `parse_chapter_info`; `parse_total` below shows
the guarded parser never reaches a panic, so the two agree everywhere. -/
def parse_chapter_info (exclusions : List RStr) (filename manga_title : RStr) : ChapterInfo :=
  (parse_chapter_info? exclusions filename manga_title).getD {}

/-- The record produced by the lib.rs parser variant, which also carries
an explicit chapter range. -/
structure ChapterInfoR where
  chapter : ℚ := 0
  volume : ℚ := 0
  chapter_range : Option (ℚ × ℚ) := none
deriving DecidableEq, Repr

/-- The digit run (digits or dots) collection used by the lib.rs parser. -/
def takeDigitsDot (s : RStr) : RStr := s.takeWhile (fun c => c.isDigit ∨ c = '.')

/-- Branch (4) of the lib.rs parser: scan for a digit group preceded by a
non-alphanumeric character (`char::is_alphanumeric`, idealized to ASCII
alphanumerics) whose value is below 1000; `i` is the loop index of the
Rust `for` loop and the fuel bounds the iteration count. -/
def scanDigitsLib (chars : List Char) : Nat → Nat → Option ℚ
  | 0, _ => none
  | fuel + 1, i =>
    match chars.get? i with
    | none => none
    | some ci =>
      let prevOk : Bool := i == 0 || (match chars.get? (i - 1) with
          | some cp => ! cp.isAlphanum
          | none => true)
      if ci.isDigit && prevOk then
        let numberStr := takeDigitsDot (chars.drop i)
        if numberStr ≠ [] then
          match parseFloat numberStr with
          | some num => if num < 1000 then some num else scanDigitsLib chars fuel (i + 1)
          | none => scanDigitsLib chars fuel (i + 1)
        else scanDigitsLib chars fuel (i + 1)
      else scanDigitsLib chars fuel (i + 1)

/-- Block (B) of the lib.rs parser: when the lowercased filename begins
with the lowercased title, the leading digit/dot run of the trimmed
remainder is the chapter. -/
def libTitlePrefix (cleanName cleanManga : RStr) : Option ChapterInfoR :=
  if cleanManga.isPrefixOf cleanName then
    if takeDigitsDot (trim (cleanName.drop cleanManga.length)) ≠ [] then
      match parseFloat (takeDigitsDot (trim (cleanName.drop cleanManga.length))) with
      | some num => some { chapter := num }
      | none => none
    else none
  else none

/-- Block (1) of the lib.rs parser: a bare `" v"` marker yields the
volume, and the parser returns immediately. -/
def libVolume (cleanName : RStr) : Option ChapterInfoR :=
  match findSub cleanName ([' ', 'v']) with
  | some pos =>
    if takeDigitsDot (cleanName.drop (pos + 2)) ≠ [] then
      match parseFloat (takeDigitsDot (cleanName.drop (pos + 2))) with
      | some vol => some { volume := vol }
      | none => none
    else none
  | none => none

/-- Block (2) of the lib.rs parser: an explicit `" - c"` marker followed
by either a `start-end` pair (producing a chapter range with the chapter
set to the range start) or a single number. -/
def libDashC (cleanName : RStr) : Option ChapterInfoR :=
  match findSub cleanName ([' ', '-', ' ', 'c']) with
  | some pos =>
    match findSub (cleanName.drop (pos + 4)) (['-']) with
    | some dashPos =>
      if takeDigitsDot (cleanName.drop (pos + 4)) ≠ [] ∧
          takeDigitsDot ((cleanName.drop (pos + 4)).drop (dashPos + 1)) ≠ [] then
        match parseFloat (takeDigitsDot (cleanName.drop (pos + 4))),
            parseFloat (takeDigitsDot ((cleanName.drop (pos + 4)).drop (dashPos + 1))) with
        | some startN, some endN =>
          some { chapter := startN, chapter_range := some (startN, endN) }
        | _, _ => none
      else none
    | none =>
      if takeDigitsDot (cleanName.drop (pos + 4)) ≠ [] then
        match parseFloat (takeDigitsDot (cleanName.drop (pos + 4))) with
        | some ch => some { chapter := ch }
        | none => none
      else none
  | none => none

/-- Block (3) of the lib.rs parser: a bare `"c"` marker not preceded by
an (ASCII) alphabetic character. -/
def libBareC (cleanName : RStr) : Option ChapterInfoR :=
  match findSub cleanName (['c']) with
  | some pos =>
    if pos == 0 || (match cleanName.get? (pos - 1) with
        | some cp => ! cp.isAlpha
        | none => true) then
      if takeDigitsDot (cleanName.drop (pos + 1)) ≠ [] then
        match parseFloat (takeDigitsDot (cleanName.drop (pos + 1))) with
        | some ch => some { chapter := ch }
        | none => none
      else none
    else none
  | none => none

/-- Block (5) of the lib.rs parser: the trailing digit/dot run. -/
def libTrailing (cleanName : RStr) : ChapterInfoR :=
  if (cleanName.reverse.takeWhile (fun c => c.isDigit ∨ c = '.')).reverse ≠ [] then
    match parseFloat ((cleanName.reverse.takeWhile (fun c => c.isDigit ∨ c = '.')).reverse) with
    | some ch => { chapter := ch }
    | none => {}
  else {}

/-- The block cascade of the lib.rs parser, run on the lowercased
filename and title. -/
def libCore (cleanName cleanManga : RStr) : ChapterInfoR :=
  if trim cleanName = trim cleanManga then {}
  else
    match libTitlePrefix cleanName cleanManga with
    | some info => info
    | none =>
      match libVolume cleanName with
      | some info => info
      | none =>
        match libDashC cleanName with
        | some info => info
        | none =>
          match libBareC cleanName with
          | some info => info
          | none =>
            match scanDigitsLib cleanName (cleanName.length + 1) 0 with
            | some num => { chapter := num }
            | none => libTrailing cleanName

/-- `parse_chapter_info` from lib.rs (the revised variant with a chapter
range): filename equality check, title-prefix digits, volume marker
(returning at once), explicit `" - c"` marker with an optional range,
bare `"c"` marker, delimited digit group scan, then trailing digits. -/
def parse_chapter_info_lib (filename manga_title : RStr) : ChapterInfoR :=
  libCore ((url_decode filename).map asciiToLower) (manga_title.map asciiToLower)

/-- The filename normalization pipeline named by the spec: percent
decoding, ASCII lowercasing, known-extension stripping and trimming, in
the order `parse_chapter_info` applies them (helper.rs line 193 plus the
trim at lines 201-203). -/
def normalizeFilename (x : RStr) : RStr :=
  trim (clean_filename ((url_decode x).map asciiToLower))

/-! ### Generic lemmas about the string model -/

theorem isPrefixOf_length {a b : RStr} (h : a.isPrefixOf b = true) : a.length ≤ b.length := by
  induction a generalizing b with
  | nil => simp
  | cons c rest ih =>
    cases b with
    | nil => simp [List.isPrefixOf] at h
    | cons d bs =>
      simp only [List.isPrefixOf, Bool.and_eq_true, beq_iff_eq] at h
      simpa using ih h.2

theorem isPrefixOf_append_self (a b : RStr) : a.isPrefixOf (a ++ b) = true := by
  induction a with
  | nil => simp [List.isPrefixOf]
  | cons c rest ih => simp [List.isPrefixOf, ih]

theorem isPrefixOf_iff_eq_take {a b : RStr} :
    a.isPrefixOf b = true ↔ a = b.take a.length := by
  induction a generalizing b with
  | nil => simp [List.isPrefixOf]
  | cons c rest ih =>
    cases b with
    | nil => simp [List.isPrefixOf]
    | cons d bs =>
      simp only [List.isPrefixOf, Bool.and_eq_true, beq_iff_eq, List.length_cons,
        List.take_succ_cons, List.cons.injEq]
      exact and_congr Iff.rfl ih

theorem findSub_bound {s pat : RStr} {p : Nat} (h : findSub s pat = some p) :
    p + pat.length ≤ s.length ∧ occursAt pat s p = true := by
  have hocc : occursAt pat s p = true := List.find?_some h
  have hmem : p ∈ List.range (s.length + 1) := List.mem_of_find?_eq_some h
  have hp : p ≤ s.length := by simpa [Nat.lt_succ_iff] using List.mem_range.mp hmem
  have hlen : pat.length ≤ (s.drop p).length := isPrefixOf_length hocc
  rw [List.length_drop] at hlen
  exact ⟨by omega, hocc⟩

theorem rfindSub_bound {s pat : RStr} {p : Nat} (h : rfindSub s pat = some p) :
    p + pat.length ≤ s.length ∧ occursAt pat s p = true := by
  have hocc : occursAt pat s p = true := List.find?_some h
  have hmem : p ∈ (List.range (s.length + 1)).reverse := List.mem_of_find?_eq_some h
  have hp : p ≤ s.length := by
    simpa [Nat.lt_succ_iff] using List.mem_range.mp (List.mem_reverse.mp hmem)
  have hlen : pat.length ≤ (s.drop p).length := isPrefixOf_length hocc
  rw [List.length_drop] at hlen
  exact ⟨by omega, hocc⟩

theorem findSub_eq_none_iff {s pat : RStr} :
    findSub s pat = none ↔ ∀ p ≤ s.length, occursAt pat s p = false := by
  unfold findSub
  rw [List.find?_eq_none]
  constructor
  · intro h p hp
    simpa using h p (List.mem_range.mpr (by omega))
  · intro h p hp
    have := h p (by simpa [Nat.lt_succ_iff] using List.mem_range.mp hp)
    simp [this]

theorem rfindSub_eq_none_iff {s pat : RStr} :
    rfindSub s pat = none ↔ ∀ p ≤ s.length, occursAt pat s p = false := by
  unfold rfindSub
  rw [List.find?_eq_none]
  constructor
  · intro h p hp
    simpa using h p (List.mem_reverse.mpr (List.mem_range.mpr (by omega)))
  · intro h p hp
    have := h p (by
      simpa [Nat.lt_succ_iff] using List.mem_range.mp (List.mem_reverse.mp hp))
    simp [this]

theorem containsSub_of_rfindSub {s pat : RStr} {p : Nat} (h : rfindSub s pat = some p) :
    containsSub s pat = true := by
  unfold containsSub
  cases hf : findSub s pat with
  | some q => rfl
  | none =>
    exfalso
    have hocc := (rfindSub_bound h).2
    have hle : p ≤ s.length := by have := (rfindSub_bound h).1; omega
    have := findSub_eq_none_iff.mp hf p hle
    rw [this] at hocc
    exact Bool.false_ne_true hocc

theorem containsSub_false_of_findSub_none {s pat : RStr} (h : findSub s pat = none) :
    containsSub s pat = false := by
  unfold containsSub
  rw [h]
  rfl

theorem rfindSub_none_of_findSub_none {s pat : RStr} (h : findSub s pat = none) :
    rfindSub s pat = none :=
  rfindSub_eq_none_iff.mpr (findSub_eq_none_iff.mp h)

theorem drop_append_add (t s : RStr) (n : Nat) :
    (t ++ s).drop (t.length + n) = s.drop n := by
  induction t with
  | nil => simp
  | cons c rest ih =>
    rw [List.cons_append, List.length_cons,
      show rest.length + 1 + n = (rest.length + n) + 1 by omega, List.drop_succ_cons]
    exact ih

theorem toNat_ofNat_small (n : Nat) (h : n < 55296) : (Char.ofNat n).toNat = n := by
  have hv : Nat.isValidChar n := Or.inl h
  simp [Char.ofNat, hv, Char.ofNatAux, Char.toNat, UInt32.toNat, UInt32.ofNatCore]

theorem asciiToLower_idem (c : Char) : asciiToLower (asciiToLower c) = asciiToLower c := by
  unfold asciiToLower
  split_ifs with h1 h2
  · exfalso
    have := toNat_ofNat_small (c.toNat + 32) (by omega)
    omega
  · rfl
  · rfl

theorem map_asciiToLower_idem (s : RStr) :
    (s.map asciiToLower).map asciiToLower = s.map asciiToLower := by
  rw [List.map_map]
  exact List.map_congr_left fun c _ => asciiToLower_idem c

theorem map_eq_self_of_forall {f : Char → Char} {s : RStr} (h : ∀ c ∈ s, f c = c) :
    s.map f = s := by
  induction s with
  | nil => rfl
  | cons c rest ih =>
    simp only [List.map_cons, List.cons.injEq]
    exact ⟨h c (List.mem_cons_self c rest), ih fun x hx => h x (List.mem_cons_of_mem c hx)⟩

theorem url_decode_cons_ne {c : Char} (l : RStr) (hc : c ≠ '%') :
    url_decode (c :: l) = c :: url_decode l := by
  cases l with
  | nil => simp [url_decode, hc]
  | cons c1 l1 =>
    cases l1 with
    | nil => simp [url_decode, hc]
    | cons c2 l2 => simp [url_decode, hc]

theorem url_decode_no_pct {s : RStr} (h : ∀ c ∈ s, c ≠ '%') : url_decode s = s := by
  induction s with
  | nil => rfl
  | cons c rest ih =>
    rw [url_decode_cons_ne rest (h c (List.mem_cons_self c rest))]
    rw [ih fun x hx => h x (List.mem_cons_of_mem c hx)]

theorem url_decode_append_no_pct {t : RStr} (s : RStr) (h : ∀ c ∈ t, c ≠ '%') :
    url_decode (t ++ s) = t ++ url_decode s := by
  induction t with
  | nil => rfl
  | cons c rest ih =>
    rw [List.cons_append, url_decode_cons_ne _ (h c (List.mem_cons_self c rest))]
    rw [ih fun x hx => h x (List.mem_cons_of_mem c hx), List.cons_append]

theorem takeWhile_all {p : Char → Bool} {s : RStr} (h : ∀ c ∈ s, p c = true) :
    s.takeWhile p = s := by
  induction s with
  | nil => rfl
  | cons c rest ih =>
    rw [List.takeWhile_cons, h c (List.mem_cons_self c rest)]
    simp only [if_pos]
    rw [ih fun x hx => h x (List.mem_cons_of_mem c hx)]

theorem dropWhile_all {p : Char → Bool} {s : RStr} (h : ∀ c ∈ s, p c = true) :
    s.dropWhile p = [] := by
  induction s with
  | nil => rfl
  | cons c rest ih =>
    rw [List.dropWhile_cons, h c (List.mem_cons_self c rest)]
    simp only [if_pos]
    exact ih fun x hx => h x (List.mem_cons_of_mem c hx)

theorem takeWhile_cons_neg {p : Char → Bool} {c : Char} {l : RStr} (h : p c = false) :
    (c :: l).takeWhile p = [] := by
  rw [List.takeWhile_cons, h]
  simp

theorem dropWhile_cons_neg {p : Char → Bool} {c : Char} {l : RStr} (h : p c = false) :
    (c :: l).dropWhile p = c :: l := by
  rw [List.dropWhile_cons, h]
  simp

theorem length_dropWhile_le (p : Char → Bool) (l : RStr) :
    (l.dropWhile p).length ≤ l.length := by
  induction l with
  | nil => simp
  | cons c rest ih =>
    rw [List.dropWhile_cons]
    split_ifs
    · simp only [List.length_cons]
      omega
    · simp

theorem trimL_cons_neg {c : Char} {l : RStr} (h : isWS c = false) :
    trimL (c :: l) = c :: l := dropWhile_cons_neg h

theorem trimR_append_last {l : RStr} {c : Char} (h : isWS c = false) :
    trimR (l ++ [c]) = l ++ [c] := by
  unfold trimR
  rw [List.reverse_append, List.reverse_singleton, List.singleton_append,
    dropWhile_cons_neg h, List.reverse_cons, List.reverse_reverse]

theorem length_trimR_le (s : RStr) : (trimR s).length ≤ s.length := by
  unfold trimR
  rw [List.length_reverse]
  calc (s.reverse.dropWhile isWS).length ≤ s.reverse.length := length_dropWhile_le _ _
  _ = s.length := List.length_reverse s

theorem trim_eq_self_head {c : Char} {l : RStr} (h : trim (c :: l) = c :: l) :
    isWS c = false := by
  cases hx : isWS c with
  | false => rfl
  | true =>
    exfalso
    have h1 : trimL (c :: l) = trimL l := by
      unfold trimL
      rw [List.dropWhile_cons, hx]
      simp
    have h2 : (trim (c :: l)).length ≤ l.length := by
      unfold trim
      rw [h1]
      calc (trimR (trimL l)).length ≤ (trimL l).length := length_trimR_le _
      _ ≤ l.length := length_dropWhile_le _ _
    rw [h] at h2
    simp only [List.length_cons] at h2
    omega

theorem trim_append_sandwich {t : RStr} (ht : trim t = t) (hne : t ≠ []) (s0 : RStr)
    {c : Char} (hc : isWS c = false) : trim (t ++ (s0 ++ [c])) = t ++ (s0 ++ [c]) := by
  obtain ⟨d, l, rfl⟩ : ∃ d l, t = d :: l := by
    cases t with
    | nil => exact absurd rfl hne
    | cons d l => exact ⟨d, l, rfl⟩
  have hd : isWS d = false := trim_eq_self_head ht
  unfold trim
  rw [List.cons_append, trimL_cons_neg hd, ← List.cons_append,
    show (d :: l) ++ (s0 ++ [c]) = ((d :: l) ++ s0) ++ [c] by rw [List.append_assoc],
    trimR_append_last hc, List.append_assoc]

theorem isSuffixOf_append_self (a b : RStr) : a.isSuffixOf (b ++ a) = true := by
  unfold List.isSuffixOf
  rw [List.reverse_append]
  exact isPrefixOf_append_self a.reverse b.reverse

theorem clean_filename_append_cbz (x : RStr) :
    clean_filename (x ++ ('.' :: 'c' :: 'b' :: 'z' :: [])) = x := by
  have hsuf : (('.' :: 'c' :: 'b' :: 'z' :: []) : RStr).isSuffixOf
      ((x ++ ('.' :: 'c' :: 'b' :: 'z' :: [])).map asciiToLower) = true := by
    rw [List.map_append]
    exact isSuffixOf_append_self _ _
  have hfind : EXTENSIONS.find? (fun ext => ext.isSuffixOf
      ((x ++ ('.' :: 'c' :: 'b' :: 'z' :: [])).map asciiToLower)) =
      some ('.' :: 'c' :: 'b' :: 'z' :: []) := by
    unfold EXTENSIONS
    rw [show (".cbz").toList = ('.' :: 'c' :: 'b' :: 'z' :: []) from rfl]
    simp only [List.find?_cons, hsuf]
  unfold clean_filename
  rw [hfind, List.length_append]
  simp only [List.length_cons, List.length_nil]
  rw [show x.length + (0 + 1 + 1 + 1 + 1) - 4 = x.length by omega]
  exact List.take_left x _

theorem parseFloat_nonneg {s : RStr} {q : ℚ} (h : parseFloat s = some q) : 0 ≤ q := by
  unfold parseFloat at h
  split at h
  · split_ifs at h
    rw [← Option.some.inj h]
    exact Nat.cast_nonneg _
  · split_ifs at h
    rw [← Option.some.inj h]
    refine add_nonneg (Nat.cast_nonneg _) (div_nonneg (Nat.cast_nonneg _) ?hd)
    positivity
  · exact absurd h (by simp)

theorem parseFloat_digits {s : RStr} (hne : s ≠ []) (hall : ∀ c ∈ s, c.isDigit = true) :
    parseFloat s = some ((digitsToNat s : ℚ)) := by
  unfold parseFloat
  rw [dropWhile_all hall, takeWhile_all hall]
  simp [hne]

theorem cenLoop_no_digits {titleChars : List Char}
    (hd : ∀ c ∈ titleChars, c.isDigit = false) :
    ∀ fuel i cleaned, cenLoop titleChars fuel i cleaned = cleaned := by
  intro fuel
  induction fuel with
  | zero => intro i cleaned; rfl
  | succ n ih =>
    intro i cleaned
    unfold cenLoop
    cases hg : titleChars.get? i with
    | none => rfl
    | some ci =>
      have hmem : ci ∈ titleChars := List.get?_mem hg
      simp only [hd ci hmem, Bool.false_eq_true, if_false]
      exact ih (i + 1) cleaned

theorem clean_excluded_numbers_not_excluded {exclusions : List RStr}
    {filename manga_title : RStr}
    (hx : exclusions.any
      (fun ex => eqIgnoreAsciiCase ex ((trim manga_title).map asciiToLower)) = false) :
    clean_excluded_numbers exclusions filename manga_title = filename := by
  unfold clean_excluded_numbers
  rw [if_pos]
  rw [hx]
  exact Bool.false_ne_true

theorem clean_excluded_numbers_excluded_no_digits (exclusions : List RStr)
    (filename manga_title : RStr)
    (hd : ∀ c ∈ (trim manga_title).map asciiToLower, c.isDigit = false) :
    clean_excluded_numbers exclusions filename manga_title = filename ∨
    clean_excluded_numbers exclusions filename manga_title = filename.map asciiToLower := by
  unfold clean_excluded_numbers
  split_ifs with h
  · exact Or.inr (cenLoop_no_digits hd _ 0 _)
  · exact Or.inl rfl

/-! ### The guarded parser never reaches a panic -/

theorem sliceFrom_isSome {s : RStr} {i : Nat} (h : i ≤ s.length) :
    sliceFrom s i = some (s.drop i) := by
  unfold sliceFrom
  rw [if_pos h]

theorem sliceTo_isSome {s : RStr} {i : Nat} (h : i ≤ s.length) :
    sliceTo s i = some (s.take i) := by
  unfold sliceTo
  rw [if_pos h]

theorem truncated?_isSome (cfp : RStr) : (truncated? cfp).isSome = true := by
  unfold truncated?
  cases h : findSub cfp ([' ', '(']) with
  | none => rfl
  | some pos =>
    have hb : pos ≤ cfp.length := by
      have := (findSub_bound h).1
      simp only [List.length_cons, List.length_nil] at this
      omega
    simp only
    rw [sliceTo_isSome hb]
    rfl

theorem volume?_isSome (truncated : RStr) : (volume? truncated).isSome = true := by
  unfold volume?
  cases h1 : findSub truncated (['(', 'v']) with
  | some start =>
    have hb : start + 2 ≤ truncated.length := by
      have := (findSub_bound h1).1
      simp only [List.length_cons, List.length_nil] at this
      omega
    simp only
    rw [sliceFrom_isSome (by omega)]
    rfl
  | none =>
    cases h2 : findSub truncated ([' ', 'v']) with
    | some pos =>
      have hb : pos + 2 ≤ truncated.length := by
        have := (findSub_bound h2).1
        simp only [List.length_cons, List.length_nil] at this
        omega
      simp only
      rw [sliceFrom_isSome (by omega)]
      rfl
    | none => rfl

theorem chapterSection?_isSome (truncated : RStr) :
    (chapterSection? truncated).isSome = true := by
  unfold chapterSection?
  cases h : rfindSub truncated ([' ', '-', ' ']) with
  | none => rfl
  | some pos =>
    have hb : pos + 3 ≤ truncated.length := by
      have := (rfindSub_bound h).1
      simp only [List.length_cons, List.length_nil] at this
      omega
    simp only
    rw [sliceFrom_isSome (by omega)]
    rfl

theorem sectionClean?_isSome (volume : ℚ) (cs : RStr) :
    (sectionClean? volume cs).isSome = true := by
  unfold sectionClean?
  split_ifs with h
  · cases h1 : rfindSub cs ([' ', 'v']) with
    | none => rfl
    | some vPos =>
      have hb : vPos + 2 ≤ cs.length := by
        have := (rfindSub_bound h1).1
        simp only [List.length_cons, List.length_nil] at this
        omega
      simp only
      rw [sliceFrom_isSome (by omega)]
      simp only
      split_ifs with h2
      · cases h3 : parseFloat (takeDigits (cs.drop (vPos + 2))) with
        | none => rfl
        | some num =>
          simp only
          split_ifs with h4
          · rw [sliceTo_isSome (by omega)]
            rfl
          · rfl
      · rfl
  · rfl

theorem phaseC?_isSome (truncated cleanManga : RStr) (volume : ℚ) :
    (phaseC? truncated cleanManga volume).isSome = true := by
  unfold phaseC?
  split_ifs with h
  · have hpre : cleanManga.length ≤ truncated.length := isPrefixOf_length h.2
    rw [sliceFrom_isSome hpre]
    simp only
    split_ifs with h2
    · cases h3 : parseFloat (takeDigits (trim (truncated.drop cleanManga.length))) <;> rfl
    · rfl
  · rfl

theorem phaseBC?_isSome (truncated cleanManga : RStr) (volume : ℚ) (cs : RStr) :
    (phaseBC? truncated cleanManga volume cs).isSome = true := by
  unfold phaseBC?
  simp only
  split_ifs with h
  · cases h1 : parseFloat ((cs.reverse.takeWhile Char.isDigit).reverse) with
    | none => exact phaseC?_isSome truncated cleanManga volume
    | some num =>
      simp only
      split_ifs <;> rfl
  · exact phaseC?_isSome truncated cleanManga volume

theorem phaseA?_isSome (truncated cleanManga : RStr) (volume : ℚ) (cs : RStr) :
    (phaseA? truncated cleanManga volume cs).isSome = true := by
  unfold phaseA?
  split_ifs with h
  · obtain ⟨c, l, rfl⟩ : ∃ c l, cs = c :: l := by
      cases cs with
      | nil => exact absurd h (by simp)
      | cons c l => exact ⟨c, l, rfl⟩
    rw [sliceFrom_isSome (by simp)]
    simp only
    split_ifs with h2
    · cases h3 : parseFloat (takeDigits (trimL ((c :: l).drop 1))) with
      | none => exact phaseBC?_isSome truncated cleanManga volume (c :: l)
      | some num => rfl
    · exact phaseBC?_isSome truncated cleanManga volume (c :: l)
  · exact phaseBC?_isSome truncated cleanManga volume cs

theorem parseCore?_isSome (cfp cleanManga : RStr) :
    (parseCore? cfp cleanManga).isSome = true := by
  unfold parseCore?
  cases h0 : truncated? cfp with
  | none => exact absurd h0 (by have := truncated?_isSome cfp; simp [h0] at this)
  | some truncated =>
    simp only
    split_ifs with h1
    · rfl
    · cases h2 : volume? truncated with
      | none => exact absurd h2 (by have := volume?_isSome truncated; simp [h2] at this)
      | some volume =>
        cases h3 : chapterSection? truncated with
        | none =>
          exact absurd h3 (by have := chapterSection?_isSome truncated; simp [h3] at this)
        | some cs0 =>
          cases h4 : sectionClean? volume cs0 with
          | none =>
            exact absurd h4 (by have := sectionClean?_isSome volume cs0; simp [h4] at this)
          | some cs =>
            simp only [h4]
            exact phaseA?_isSome truncated cleanManga volume cs

theorem parse_total (exclusions : List RStr) (filename manga_title : RStr) :
    (parse_chapter_info? exclusions filename manga_title).isSome = true :=
  parseCore?_isSome _ _

/-! ### The parser only produces non-negative numbers -/

theorem volBody_nonneg (after : RStr) :
    0 ≤ (if takeDigits after ≠ [] then
      match parseFloat (takeDigits after) with
      | some vol => vol
      | none => 0
    else (0 : ℚ)) := by
  split_ifs
  · split
    · exact parseFloat_nonneg (by assumption)
    · exact le_refl 0
  · exact le_refl 0

theorem volume?_nonneg {truncated : RStr} {v : ℚ} (h : volume? truncated = some v) :
    0 ≤ v := by
  unfold volume? at h
  split at h
  · rename_i start heq
    cases hs : sliceFrom truncated (start + 2) with
    | none => rw [hs] at h; exact absurd h (by simp)
    | some after =>
      rw [hs, Option.map_some'] at h
      rw [← Option.some.inj h]
      exact volBody_nonneg after
  · split at h
    · rename_i pos heq2
      cases hs : sliceFrom truncated (pos + 2) with
      | none => rw [hs] at h; exact absurd h (by simp)
      | some after =>
        rw [hs, Option.map_some'] at h
        rw [← Option.some.inj h]
        exact volBody_nonneg after
    · rw [← Option.some.inj h]

theorem phaseC?_nonneg {truncated cleanManga : RStr} {volume : ℚ} {r : ChapterInfo}
    (hvol : 0 ≤ volume) (h : phaseC? truncated cleanManga volume = some r) :
    0 ≤ r.chapter ∧ 0 ≤ r.volume := by
  unfold phaseC? at h
  split_ifs at h
  · cases hs : sliceFrom truncated cleanManga.length with
    | none => rw [hs] at h; exact absurd h (by simp)
    | some rem =>
      rw [hs] at h
      simp only at h
      split_ifs at h
      · split at h
        · rw [← Option.some.inj h]
          exact ⟨parseFloat_nonneg (by assumption), hvol⟩
        · rw [← Option.some.inj h]
          exact ⟨le_refl 0, hvol⟩
      · rw [← Option.some.inj h]
        exact ⟨le_refl 0, hvol⟩
  · rw [← Option.some.inj h]
    exact ⟨le_refl 0, hvol⟩

theorem phaseBC?_nonneg {truncated cleanManga : RStr} {volume : ℚ} {cs : RStr}
    {r : ChapterInfo} (hvol : 0 ≤ volume)
    (h : phaseBC? truncated cleanManga volume cs = some r) :
    0 ≤ r.chapter ∧ 0 ≤ r.volume := by
  unfold phaseBC? at h
  simp only at h
  split_ifs at h
  · split at h
    · split_ifs at h
      · rw [← Option.some.inj h]
        exact ⟨le_refl 0, hvol⟩
      · rw [← Option.some.inj h]
        exact ⟨parseFloat_nonneg (by assumption), hvol⟩
    · exact phaseC?_nonneg hvol h
  · exact phaseC?_nonneg hvol h

theorem phaseA?_nonneg {truncated cleanManga : RStr} {volume : ℚ} {cs : RStr}
    {r : ChapterInfo} (hvol : 0 ≤ volume)
    (h : phaseA? truncated cleanManga volume cs = some r) :
    0 ≤ r.chapter ∧ 0 ≤ r.volume := by
  unfold phaseA? at h
  split_ifs at h
  · cases hs : sliceFrom cs 1 with
    | none => rw [hs] at h; exact absurd h (by simp)
    | some rest =>
      rw [hs] at h
      simp only at h
      split_ifs at h
      · split at h
        · rw [← Option.some.inj h]
          exact ⟨parseFloat_nonneg (by assumption), hvol⟩
        · exact phaseBC?_nonneg hvol h
      · exact phaseBC?_nonneg hvol h
  · exact phaseBC?_nonneg hvol h

theorem parseCore?_nonneg {cfp cleanManga : RStr} {r : ChapterInfo}
    (h : parseCore? cfp cleanManga = some r) : 0 ≤ r.chapter ∧ 0 ≤ r.volume := by
  unfold parseCore? at h
  split at h
  · exact absurd h (by simp)
  · split_ifs at h
    · rw [← Option.some.inj h]
      exact ⟨le_refl 0, le_refl 0⟩
    · split at h
      · exact absurd h (by simp)
      · split at h
        · exact absurd h (by simp)
        · split at h
          · exact absurd h (by simp)
          · exact phaseA?_nonneg (volume?_nonneg (by assumption)) h

/-! ### Small helpers for the per-claim proofs -/

theorem forall_of_map_eq_self {f : Char → Char} {s : RStr} (h : s.map f = s) :
    ∀ c ∈ s, f c = c := by
  induction s with
  | nil => intro c hc; exact absurd hc (by simp)
  | cons c rest ih =>
    simp only [List.map_cons, List.cons.injEq] at h
    intro x hx
    rcases List.mem_cons.mp hx with h1 | h2
    · rw [h1]; exact h.1
    · exact ih h.2 x h2

theorem head?_append_of_ne_nil {t : RStr} (s : RStr) (h : t ≠ []) :
    (t ++ s).head? = t.head? := by
  cases t with
  | nil => exact absurd rfl h
  | cons c l => rfl

theorem takeWhile_eq_nil_of_forall {p : Char → Bool} {l : RStr}
    (h : ∀ c ∈ l, p c = false) : l.takeWhile p = [] := by
  cases l with
  | nil => rfl
  | cons c rest => exact takeWhile_cons_neg (h c (List.mem_cons_self c rest))

theorem sliceFrom_append {t : RStr} (b : RStr) (k : Nat) (h : k ≤ b.length) :
    sliceFrom (t ++ b) (t.length + k) = some (b.drop k) := by
  unfold sliceFrom
  rw [if_pos (by rw [List.length_append]; omega), drop_append_add]

theorem sliceTo_append_self (t b : RStr) : sliceTo (t ++ b) t.length = some t := by
  unfold sliceTo
  rw [if_pos (by rw [List.length_append]; omega), List.take_left]

/-! ### Claim theorems -/

/-- C1.  Totality: for every exclusion list and every pair of input
strings, the guarded parser (in which every Rust panic site returns
`none`) reaches a result, equal to that of the total parser
`parse_chapter_info`; so the parser always returns a `ChapterInfo` and
never panics, absence of information is the all-default record, and an
unparsable numeric candidate falls through to the next phase (the
`parseFloat _ = none` arms of the phase functions) instead of erroring. -/
theorem parse_chapter_info_never_panics (exclusions : List RStr) (filename manga_title : RStr) :
    parse_chapter_info? exclusions filename manga_title =
      some (parse_chapter_info exclusions filename manga_title) := by
  unfold parse_chapter_info
  cases h : parse_chapter_info? exclusions filename manga_title with
  | some r => rfl
  | none =>
    have htot := parse_total exclusions filename manga_title
    rw [h] at htot
    exact absurd htot (by simp)

/-- C10.  Non-negative outputs: for every exclusion list and every pair
of input strings, the parser's chapter and volume are at least `0`; the
`-1` "unknown" convention is nowhere in the parser (it is applied by the
caller `get_chapter_list`). -/
theorem parse_chapter_info_nonneg (exclusions : List RStr) (filename manga_title : RStr) :
    0 ≤ (parse_chapter_info exclusions filename manga_title).chapter ∧
    0 ≤ (parse_chapter_info exclusions filename manga_title).volume := by
  unfold parse_chapter_info
  cases h : parse_chapter_info? exclusions filename manga_title with
  | none => exact ⟨le_refl 0, le_refl 0⟩
  | some r => exact parseCore?_nonneg h

/-- C9.  Percent-decode identity: `url_decode` is the identity on
strings without `'%'`; a `'%'` followed by fewer than two characters, or
whose following two characters are not both hex digits, passes through
literally (the `'%'` is emitted and scanning continues). -/
theorem url_decode_identity_and_literal_pct :
    (∀ s : RStr, (∀ c ∈ s, c ≠ '%') → url_decode s = s) ∧
    url_decode (['%']) = ['%'] ∧
    (∀ c : Char, url_decode (['%', c]) = '%' :: url_decode [c]) ∧
    (∀ c1 c2 : Char, ∀ rest : RStr, hex_val c1 = none ∨ hex_val c2 = none →
      url_decode ('%' :: c1 :: c2 :: rest) = '%' :: url_decode (c1 :: c2 :: rest)) := by
  refine ⟨fun s h => url_decode_no_pct h, rfl, fun c => rfl, ?hlit⟩
  intro c1 c2 rest h
  cases hx1 : hex_val c1 with
  | none => simp [url_decode, hx1]
  | some v1 =>
    cases hx2 : hex_val c2 with
    | none => simp [url_decode, hx1, hx2]
    | some v2 =>
      exfalso
      rcases h with h | h
      · rw [hx1] at h; exact Option.noConfusion h
      · rw [hx2] at h; exact Option.noConfusion h

/-- Closed witness for C9 at concrete inputs. -/
theorem url_decode_identity_witness :
    url_decode (("abc").toList) = ("abc").toList ∧
    url_decode ('%' :: 'q' :: '1' :: []) = '%' :: url_decode ('q' :: '1' :: []) :=
  ⟨url_decode_identity_and_literal_pct.1 (("abc").toList) (by decide),
   url_decode_identity_and_literal_pct.2.2.2 'q' '1' [] (Or.inl (by decide))⟩

/-- C2, counterexample.  A series title carrying a known extension
defeats the identity check, because the filename is extension-stripped
but the title is not: `parse_chapter_info("5.cbz", "5.cbz")` reports
chapter 5 rather than the default record. -/
theorem parse_identity_counterexample :
    parse_chapter_info [] (("5.cbz").toList) (("5.cbz").toList) ≠ {} := by
  with_unfolding_all decide

/-- C2, amended.  For every series title that is a fixed point of the
filename normalization (no `'%'`, already lowercase, no known extension,
trimmed), contains no `" ("`, and is not on the exclusion list,
`parse_chapter_info(title, title)` is the default record, via the exact
equality of the truncated filename with the lowercased title. -/
theorem parse_identity_of_normalized (exclusions : List RStr) (t : RStr)
    (hpct : ∀ c ∈ t, c ≠ '%')
    (hlow : t.map asciiToLower = t)
    (hcf : clean_filename t = t)
    (htr : trim t = t)
    (hnp : findSub t ([' ', '(']) = none)
    (hex : exclusions.any
      (fun ex => eqIgnoreAsciiCase ex ((trim t).map asciiToLower)) = false) :
    parse_chapter_info exclusions t t = {} := by
  unfold parse_chapter_info parse_chapter_info?
  rw [url_decode_no_pct hpct, hlow, hcf, clean_excluded_numbers_not_excluded hex]
  unfold parseCore? truncated?
  rw [hnp, htr]
  simp

/-- Closed witness for C2's amended theorem. -/
theorem parse_identity_witness : parse_chapter_info [] (("naruto").toList) (("naruto").toList)
    = {} :=
  parse_identity_of_normalized [] (("naruto").toList) (by decide) (by decide) (by decide)
    (by decide) (by decide) (by decide)

/-! ### Idempotence machinery for the normalizer -/

theorem dropWhile_head_not {p : Char → Bool} {l : RStr} {c : Char} {r : RStr}
    (h : l.dropWhile p = c :: r) : p c = false := by
  induction l with
  | nil => exact absurd h (by simp)
  | cons d rest ih =>
    rw [List.dropWhile_cons] at h
    split_ifs at h with hd
    · exact ih h
    · cases hx : p c with
      | false => rfl
      | true =>
        injection h with h1 h2
        rw [h1] at hd
        rw [hx] at hd
        exact absurd rfl hd

theorem dropWhile_self_idem (p : Char → Bool) (l : RStr) :
    (l.dropWhile p).dropWhile p = l.dropWhile p := by
  cases h : l.dropWhile p with
  | nil => rfl
  | cons c r => exact dropWhile_cons_neg (dropWhile_head_not h)

theorem trimR_idem (s : RStr) : trimR (trimR s) = trimR s := by
  unfold trimR
  rw [List.reverse_reverse, dropWhile_self_idem]

theorem trimR_cons_shape {c : Char} (v : RStr) (hc : isWS c = false) :
    ∃ w, trimR (c :: v) = c :: w := by
  unfold trimR
  rw [show (c :: v).reverse = v.reverse ++ [c] from List.reverse_cons c v,
    List.dropWhile_append]
  split_ifs with h
  · refine ⟨[], ?he⟩
    rw [dropWhile_cons_neg hc]
    rfl
  · refine ⟨(v.reverse.dropWhile isWS).reverse, ?hf⟩
    rw [List.reverse_append]
    rfl

theorem trim_idem (s : RStr) : trim (trim s) = trim s := by
  unfold trim
  have hstep : trimL (trimR (trimL s)) = trimR (trimL s) := by
    cases hu : trimL s with
    | nil => rfl
    | cons c v =>
      have hc : isWS c = false := dropWhile_head_not hu
      obtain ⟨w, hw⟩ := trimR_cons_shape v hc
      rw [hw]
      exact trimL_cons_neg hc
  rw [hstep, trimR_idem]

theorem mem_of_mem_trim {c : Char} {s : RStr} (h : c ∈ trim s) : c ∈ s := by
  unfold trim trimR trimL at h
  rw [List.mem_reverse] at h
  have h2 := (List.dropWhile_sublist isWS).subset h
  rw [List.mem_reverse] at h2
  exact (List.dropWhile_sublist isWS).subset h2

theorem lowerFixed_clean_filename {s : RStr} (h : s.map asciiToLower = s) :
    (clean_filename s).map asciiToLower = clean_filename s := by
  unfold clean_filename
  cases hf : EXTENSIONS.find? (fun ext => ext.isSuffixOf (s.map asciiToLower)) with
  | none => exact h
  | some ext =>
    simp only
    rw [List.map_take, h]

theorem lowerFixed_trim {s : RStr} (h : s.map asciiToLower = s) :
    (trim s).map asciiToLower = trim s :=
  map_eq_self_of_forall fun c hc => forall_of_map_eq_self h c (mem_of_mem_trim hc)

theorem lowerFixed_normalizeFilename (x : RStr) :
    (normalizeFilename x).map asciiToLower = normalizeFilename x := by
  unfold normalizeFilename
  exact lowerFixed_trim (lowerFixed_clean_filename (map_asciiToLower_idem _))

/-- C8, counterexample.  Normalization strips at most one known
extension per pass, so a doubled extension breaks idempotence:
normalizing "a.cbz.cbz" gives "a.cbz", and normalizing again gives
"a". -/
theorem normalize_not_idempotent :
    normalizeFilename (normalizeFilename (("a.cbz.cbz").toList)) ≠
      normalizeFilename (("a.cbz.cbz").toList) := by decide

/-- C8, amended.  Normalization (percent decoding, ASCII lowercasing,
known-extension stripping, trimming, in the order the parser applies
them) is idempotent on every input whose normal form contains no `'%'`
and does not itself end in a known extension; the counterexamples are
exactly the inputs whose normal form still decodes or strips further
(e.g. doubled extensions such as "a.cbz.cbz", or double-encoded
percents such as "%2541"). -/
theorem normalize_idempotent_of_stable (x : RStr)
    (hpct : ∀ c ∈ normalizeFilename x, c ≠ '%')
    (hcf : clean_filename (normalizeFilename x) = normalizeFilename x) :
    normalizeFilename (normalizeFilename x) = normalizeFilename x := by
  have hl : (normalizeFilename x).map asciiToLower = normalizeFilename x :=
    lowerFixed_normalizeFilename x
  have htr : trim (normalizeFilename x) = normalizeFilename x := by
    unfold normalizeFilename
    exact trim_idem _
  conv_lhs => rw [show normalizeFilename (normalizeFilename x) =
    trim (clean_filename ((url_decode (normalizeFilename x)).map asciiToLower)) from rfl]
  rw [url_decode_no_pct hpct, hl, hcf, htr]

/-- Closed witness for C8's amended theorem. -/
theorem normalize_idempotent_witness :
    normalizeFilename (normalizeFilename (("Naruto v01.cbz").toList)) =
      normalizeFilename (("Naruto v01.cbz").toList) :=
  normalize_idempotent_of_stable (("Naruto v01.cbz").toList) (by decide) (by decide)

/-- C3, counterexample.  Exclusion does not suppress trailing-digit
inference: with the series "86" on the exclusion list, the digits of the
title are deleted from "86123" leaving "123", and ordinary trailing-digit
inference still reports chapter 123 — exactly what the claim says must
not happen. -/
theorem exclusion_counterexample :
    (parse_chapter_info [("86").toList] (("86123.cbz").toList) (("86").toList)).chapter
      = 123 := by
  with_unfolding_all decide

/-- C3, amended.  Being on the exclusion list does not suppress ordinary
numeric inference: it only deletes the title's own digit runs (with
context) from the filename.  For an excluded title that contains no
digits at all (and no volume/section markers), `parse("<title>123.cbz",
title)` still reports chapter 123 by trailing-digit inference. -/
theorem exclusion_does_not_suppress (exclusions : List RStr) (t : RStr)
    (hpct : ∀ c ∈ t, c ≠ '%')
    (hlow : t.map asciiToLower = t)
    (htr : trim t = t)
    (hne : t ≠ [])
    (hdig : ∀ c ∈ t, c.isDigit = false)
    (_hex : exclusions.any
      (fun ex => eqIgnoreAsciiCase ex ((trim t).map asciiToLower)) = true)
    (h1 : findSub (t ++ ("123").toList) ([' ', '(']) = none)
    (h2 : findSub (t ++ ("123").toList) (['(', 'v']) = none)
    (h3 : findSub (t ++ ("123").toList) ([' ', 'v']) = none)
    (h4 : findSub (t ++ ("123").toList) ([' ', '-', ' ']) = none)
    (h5 : t.head? ≠ some 'c') :
    parse_chapter_info exclusions (t ++ ("123.cbz").toList) t
      = { chapter := 123, volume := 0 } := by
  have hdec : url_decode (t ++ ("123.cbz").toList) = t ++ ("123.cbz").toList := by
    rw [url_decode_append_no_pct _ hpct,
      show url_decode (("123.cbz").toList) = ("123.cbz").toList from by decide]
  have hlowfull : (t ++ ("123.cbz").toList).map asciiToLower = t ++ ("123.cbz").toList := by
    rw [List.map_append, hlow,
      show (("123.cbz").toList).map asciiToLower = ("123.cbz").toList from by decide]
  have hcf : clean_filename (t ++ ("123.cbz").toList) = t ++ ("123").toList := by
    rw [show ("123.cbz").toList = ("123").toList ++ ('.' :: 'c' :: 'b' :: 'z' :: []) from
      by decide, ← List.append_assoc]
    exact clean_filename_append_cbz _
  have hlowu : (t ++ ("123").toList).map asciiToLower = t ++ ("123").toList := by
    rw [List.map_append, hlow,
      show (("123").toList).map asciiToLower = ("123").toList from by decide]
  have hdtrim : ∀ c ∈ (trim t).map asciiToLower, c.isDigit = false := by
    rw [htr, hlow]
    exact hdig
  have hcen : clean_excluded_numbers exclusions (t ++ ("123").toList) t
      = t ++ ("123").toList := by
    rcases clean_excluded_numbers_excluded_no_digits
      exclusions (t ++ ("123").toList) t hdtrim with h | h
    · exact h
    · rw [h, hlowu]
  have htru : trim (t ++ ("123").toList) = t ++ ("123").toList := by
    rw [show ("123").toList = ("12").toList ++ ['3'] from by decide]
    exact trim_append_sandwich htr hne _ (by decide)
  have hneq : (t ++ ("123").toList = t) = False := by
    simp only [eq_iff_iff, iff_false]
    intro heq
    have hlen := congrArg List.length heq
    rw [List.length_append] at hlen
    simp at hlen
  have hvol : volume? (t ++ ("123").toList) = some 0 := by
    unfold volume?
    rw [h2, h3]
  have hcs : chapterSection? (t ++ ("123").toList) = some (t ++ ("123").toList) := by
    unfold chapterSection?
    rw [rfindSub_none_of_findSub_none h4]
  have hsc : sectionClean? 0 (t ++ ("123").toList) = some (t ++ ("123").toList) := by
    unfold sectionClean?
    simp
  have htrail : ((t ++ ("123").toList).reverse.takeWhile Char.isDigit).reverse
      = ("123").toList := by
    rw [List.reverse_append, List.takeWhile_append_of_pos (by decide),
      takeWhile_eq_nil_of_forall (fun c hc => hdig c (List.mem_reverse.mp hc)),
      List.append_nil, List.reverse_reverse]
  have hA : phaseA? (t ++ ("123").toList) t 0 (t ++ ("123").toList)
      = phaseBC? (t ++ ("123").toList) t 0 (t ++ ("123").toList) := by
    unfold phaseA?
    rw [if_neg (by rw [head?_append_of_ne_nil _ hne]; exact h5)]
  have hBC : phaseBC? (t ++ ("123").toList) t 0 (t ++ ("123").toList)
      = some { chapter := 123, volume := 0 } := by
    unfold phaseBC?
    simp only [htrail]
    rw [if_pos (by decide),
      show parseFloat (("123").toList) = some (123 : ℚ) from by with_unfolding_all decide]
    dsimp only
    rw [if_neg (by simp)]
  unfold parse_chapter_info parse_chapter_info?
  rw [hdec, hlowfull, hcf, hcen, hlow]
  unfold parseCore? truncated?
  rw [h1]
  simp only [htru, htr, hneq, if_false, hvol, hcs, hsc, hA, hBC, Option.getD_some]

/-- Closed witness for C3's amended theorem. -/
theorem exclusion_does_not_suppress_witness :
    parse_chapter_info [("foo").toList] (("foo").toList ++ ("123.cbz").toList)
      (("foo").toList) = { chapter := 123, volume := 0 } :=
  exclusion_does_not_suppress [("foo").toList] (("foo").toList) (by decide) (by decide)
    (by decide) (by decide) (by decide) (by decide) (by decide) (by decide) (by decide)
    (by decide) (by decide)

theorem sliceFrom_append_self (t b : RStr) : sliceFrom (t ++ b) t.length = some b := by
  unfold sliceFrom
  rw [if_pos (by rw [List.length_append]; omega), List.drop_left]

/-- C5, counterexample.  The volume-only rule fails for titles that end
in digits: for the title "x2", `parse("x2 v01.cbz", "x2")` reports
chapter 2 (the title's own trailing digit) alongside volume 1, not
"volume only". -/
theorem volume_only_counterexample :
    parse_chapter_info [] (("x2 v01.cbz").toList) (("x2").toList)
      = { chapter := 2, volume := 1 } := by
  with_unfolding_all decide

/-- C5, amended.  The trailing-number-equals-volume rule holds for
well-behaved titles (lowercase, trimmed, not excluded, carrying no
digits at their end, no 'c' at their start, and no `" ("`, `"(v"`,
`" v"` or `" - "` of their own): `parse("<title> v01.cbz")` yields
volume 1 with chapter unset, while `parse("<title> v01 - 5.cbz")`
yields volume 1 and chapter 5.  Titles violating these conditions (for
example ending in a digit) are excluded by the counterexample. -/
theorem volume_chapter_disambiguation (exclusions : List RStr) (t : RStr)
    (hpct : ∀ c ∈ t, c ≠ '%')
    (hlow : t.map asciiToLower = t)
    (htr : trim t = t)
    (hne : t ≠ [])
    (hex : exclusions.any
      (fun ex => eqIgnoreAsciiCase ex ((trim t).map asciiToLower)) = false)
    (h6 : t.head? ≠ some 'c')
    (h7 : t.reverse.takeWhile Char.isDigit = [])
    (h1a : findSub (t ++ (" v01").toList) ([' ', '(']) = none)
    (h2a : findSub (t ++ (" v01").toList) (['(', 'v']) = none)
    (h3a : findSub (t ++ (" v01").toList) ([' ', 'v']) = some t.length)
    (h4a : findSub (t ++ (" v01").toList) ([' ', '-', ' ']) = none)
    (h5a : rfindSub (t ++ (" v01").toList) ([' ', 'v']) = some t.length)
    (h1b : findSub (t ++ (" v01 - 5").toList) ([' ', '(']) = none)
    (h2b : findSub (t ++ (" v01 - 5").toList) (['(', 'v']) = none)
    (h3b : findSub (t ++ (" v01 - 5").toList) ([' ', 'v']) = some t.length)
    (h4b : rfindSub (t ++ (" v01 - 5").toList) ([' ', '-', ' ']) = some (t.length + 4)) :
    parse_chapter_info exclusions (t ++ (" v01.cbz").toList) t
      = { chapter := 0, volume := 1 } ∧
    parse_chapter_info exclusions (t ++ (" v01 - 5.cbz").toList) t
      = { chapter := 5, volume := 1 } := by
  constructor
  · -- "<title> v01.cbz": volume only
    have hdec : url_decode (t ++ (" v01.cbz").toList) = t ++ (" v01.cbz").toList := by
      rw [url_decode_append_no_pct _ hpct,
        show url_decode ((" v01.cbz").toList) = (" v01.cbz").toList from by decide]
    have hlowfull : (t ++ (" v01.cbz").toList).map asciiToLower
        = t ++ (" v01.cbz").toList := by
      rw [List.map_append, hlow,
        show ((" v01.cbz").toList).map asciiToLower = (" v01.cbz").toList from by decide]
    have hcf : clean_filename (t ++ (" v01.cbz").toList) = t ++ (" v01").toList := by
      rw [show (" v01.cbz").toList = (" v01").toList ++ ('.' :: 'c' :: 'b' :: 'z' :: [])
        from by decide, ← List.append_assoc]
      exact clean_filename_append_cbz _
    have hcen : clean_excluded_numbers exclusions (t ++ (" v01").toList) t
        = t ++ (" v01").toList := clean_excluded_numbers_not_excluded hex
    have htru : trim (t ++ (" v01").toList) = t ++ (" v01").toList := by
      rw [show (" v01").toList = (" v0").toList ++ ['1'] from by decide]
      exact trim_append_sandwich htr hne _ (by decide)
    have hneq : (t ++ (" v01").toList = t) = False := by
      simp only [eq_iff_iff, iff_false]
      intro heq
      have hlen := congrArg List.length heq
      rw [List.length_append] at hlen
      simp at hlen
    have hvol : volume? (t ++ (" v01").toList) = some 1 := by
      unfold volume?
      rw [h2a, h3a]
      dsimp only
      rw [sliceFrom_append _ 2 (by decide)]
      with_unfolding_all decide
    have hcs : chapterSection? (t ++ (" v01").toList) = some (t ++ (" v01").toList) := by
      unfold chapterSection?
      rw [rfindSub_none_of_findSub_none h4a]
    have hsc : sectionClean? 1 (t ++ (" v01").toList) = some t := by
      unfold sectionClean?
      rw [if_pos (by norm_num), h5a]
      dsimp only
      rw [sliceFrom_append _ 2 (by decide)]
      dsimp only
      rw [if_pos (by decide),
        show parseFloat (takeDigits (((" v01").toList).drop 2)) = some (1 : ℚ) from by
          with_unfolding_all decide]
      dsimp only
      rw [if_pos (by with_unfolding_all decide), sliceTo_append_self, Option.map_some', htr]
    have hA : phaseA? (t ++ (" v01").toList) t 1 t = phaseBC? (t ++ (" v01").toList) t 1 t := by
      unfold phaseA?
      rw [if_neg h6]
    have hBC : phaseBC? (t ++ (" v01").toList) t 1 t
        = phaseC? (t ++ (" v01").toList) t 1 := by
      unfold phaseBC?
      dsimp only
      rw [h7]
      simp
    have hC : phaseC? (t ++ (" v01").toList) t 1 = some { chapter := 0, volume := 1 } := by
      unfold phaseC?
      rw [if_pos ⟨by rw [containsSub_false_of_findSub_none h4a]; simp,
        isPrefixOf_append_self t _⟩, sliceFrom_append_self]
      dsimp only
      rw [show trim ((" v01").toList) = ("v01").toList from by decide]
      rw [if_neg (by decide)]
    unfold parse_chapter_info parse_chapter_info?
    rw [hdec, hlowfull, hcf, hcen, hlow]
    unfold parseCore? truncated?
    rw [h1a]
    simp only [htru, htr, hneq, if_false, hvol, hcs, hsc, hA, hBC, hC, Option.getD_some]
  · -- "<title> v01 - 5.cbz": volume 1 and chapter 5
    have hdec : url_decode (t ++ (" v01 - 5.cbz").toList) = t ++ (" v01 - 5.cbz").toList := by
      rw [url_decode_append_no_pct _ hpct,
        show url_decode ((" v01 - 5.cbz").toList) = (" v01 - 5.cbz").toList from by decide]
    have hlowfull : (t ++ (" v01 - 5.cbz").toList).map asciiToLower
        = t ++ (" v01 - 5.cbz").toList := by
      rw [List.map_append, hlow,
        show ((" v01 - 5.cbz").toList).map asciiToLower = (" v01 - 5.cbz").toList from by
          decide]
    have hcf : clean_filename (t ++ (" v01 - 5.cbz").toList) = t ++ (" v01 - 5").toList := by
      rw [show (" v01 - 5.cbz").toList
          = (" v01 - 5").toList ++ ('.' :: 'c' :: 'b' :: 'z' :: []) from by decide,
        ← List.append_assoc]
      exact clean_filename_append_cbz _
    have hcen : clean_excluded_numbers exclusions (t ++ (" v01 - 5").toList) t
        = t ++ (" v01 - 5").toList := clean_excluded_numbers_not_excluded hex
    have htru : trim (t ++ (" v01 - 5").toList) = t ++ (" v01 - 5").toList := by
      rw [show (" v01 - 5").toList = (" v01 - ").toList ++ ['5'] from by decide]
      exact trim_append_sandwich htr hne _ (by decide)
    have hneq : (t ++ (" v01 - 5").toList = t) = False := by
      simp only [eq_iff_iff, iff_false]
      intro heq
      have hlen := congrArg List.length heq
      rw [List.length_append] at hlen
      simp at hlen
    have hvol : volume? (t ++ (" v01 - 5").toList) = some 1 := by
      unfold volume?
      rw [h2b, h3b]
      dsimp only
      rw [sliceFrom_append _ 2 (by decide)]
      with_unfolding_all decide
    have hcs : chapterSection? (t ++ (" v01 - 5").toList) = some (('5') :: []) := by
      unfold chapterSection?
      rw [h4b]
      dsimp only
      rw [Nat.add_assoc, sliceFrom_append _ (4 + 3) (by decide)]
      rw [Option.map_some']
      rw [show trim (((" v01 - 5").toList).drop (4 + 3)) = ('5') :: [] from by decide]
    have hsc : sectionClean? 1 (('5') :: []) = some (('5') :: []) := by
      with_unfolding_all decide
    have hA : phaseA? (t ++ (" v01 - 5").toList) t 1 (('5') :: [])
        = phaseBC? (t ++ (" v01 - 5").toList) t 1 (('5') :: []) := by
      unfold phaseA?
      rw [if_neg (by decide)]
    have hcont : containsSub (t ++ (" v01 - 5").toList) ([' ', '-', ' ']) = true :=
      containsSub_of_rfindSub h4b
    have hBC : phaseBC? (t ++ (" v01 - 5").toList) t 1 (('5') :: [])
        = some { chapter := 5, volume := 1 } := by
      unfold phaseBC?
      simp only [show (((('5') :: []) : RStr).reverse.takeWhile Char.isDigit).reverse
        = ('5') :: [] from by decide]
      rw [if_pos (by decide),
        show parseFloat (('5') :: []) = some (5 : ℚ) from by with_unfolding_all decide]
      dsimp only
      rw [if_neg (fun hcond => hcond.1 hcont)]
    unfold parse_chapter_info parse_chapter_info?
    rw [hdec, hlowfull, hcf, hcen, hlow]
    unfold parseCore? truncated?
    rw [h1b]
    simp only [htru, htr, hneq, if_false, hvol, hcs, hsc, hA, hBC, Option.getD_some]

/-- Closed witness for C5's amended theorem. -/
theorem volume_chapter_disambiguation_witness :
    parse_chapter_info [] ((("naruto").toList) ++ ((" v01.cbz").toList)) (("naruto").toList)
      = { chapter := 0, volume := 1 } ∧
    parse_chapter_info [] ((("naruto").toList) ++ ((" v01 - 5.cbz").toList))
      (("naruto").toList) = { chapter := 5, volume := 1 } :=
  volume_chapter_disambiguation [] (("naruto").toList) (by decide) (by decide) (by decide)
    (by decide) (by decide) (by decide) (by decide) (by decide) (by decide) (by decide)
    (by decide) (by decide) (by decide) (by decide) (by decide) (by decide)

/-- C6, counterexample.  The trailing digit run of the helper.rs parser
consists of ASCII digits only — the decimal point is not included — so a
chapter section ending in "10.5" yields chapter 5, not 10.5. -/
theorem fractional_chapter_counterexample :
    parse_chapter_info [] (("x - 10.5.cbz").toList) (("x").toList)
      = { chapter := 5, volume := 0 } ∧ (5 : ℚ) ≠ 10.5 := by
  constructor
  · with_unfolding_all decide
  · with_unfolding_all decide

/-- C6, amended.  The trailing run extracted in phase (B) stops at the
first non-digit character, so for a well-behaved title the chapter
section "10.5" parses to chapter 5.0 (the digits after the dot); runs
are parsed as (rational-valued) floats. -/
theorem fractional_chapter_truncated (exclusions : List RStr) (t : RStr)
    (hpct : ∀ c ∈ t, c ≠ '%')
    (hlow : t.map asciiToLower = t)
    (htr : trim t = t)
    (hne : t ≠ [])
    (hex : exclusions.any
      (fun ex => eqIgnoreAsciiCase ex ((trim t).map asciiToLower)) = false)
    (h1 : findSub (t ++ (" - 10.5").toList) ([' ', '(']) = none)
    (h2 : findSub (t ++ (" - 10.5").toList) (['(', 'v']) = none)
    (h3 : findSub (t ++ (" - 10.5").toList) ([' ', 'v']) = none)
    (h4 : rfindSub (t ++ (" - 10.5").toList) ([' ', '-', ' ']) = some t.length) :
    parse_chapter_info exclusions (t ++ (" - 10.5.cbz").toList) t
      = { chapter := 5, volume := 0 } := by
  have hdec : url_decode (t ++ (" - 10.5.cbz").toList) = t ++ (" - 10.5.cbz").toList := by
    rw [url_decode_append_no_pct _ hpct,
      show url_decode ((" - 10.5.cbz").toList) = (" - 10.5.cbz").toList from by decide]
  have hlowfull : (t ++ (" - 10.5.cbz").toList).map asciiToLower
      = t ++ (" - 10.5.cbz").toList := by
    rw [List.map_append, hlow,
      show ((" - 10.5.cbz").toList).map asciiToLower = (" - 10.5.cbz").toList from by decide]
  have hcf : clean_filename (t ++ (" - 10.5.cbz").toList) = t ++ (" - 10.5").toList := by
    rw [show (" - 10.5.cbz").toList
        = (" - 10.5").toList ++ ('.' :: 'c' :: 'b' :: 'z' :: []) from by decide,
      ← List.append_assoc]
    exact clean_filename_append_cbz _
  have hcen : clean_excluded_numbers exclusions (t ++ (" - 10.5").toList) t
      = t ++ (" - 10.5").toList := clean_excluded_numbers_not_excluded hex
  have htru : trim (t ++ (" - 10.5").toList) = t ++ (" - 10.5").toList := by
    rw [show (" - 10.5").toList = (" - 10.").toList ++ ['5'] from by decide]
    exact trim_append_sandwich htr hne _ (by decide)
  have hneq : (t ++ (" - 10.5").toList = t) = False := by
    simp only [eq_iff_iff, iff_false]
    intro heq
    have hlen := congrArg List.length heq
    rw [List.length_append] at hlen
    simp at hlen
  have hvol : volume? (t ++ (" - 10.5").toList) = some 0 := by
    unfold volume?
    rw [h2, h3]
  have hcs : chapterSection? (t ++ (" - 10.5").toList)
      = some (('1') :: ('0') :: ('.') :: ('5') :: []) := by
    unfold chapterSection?
    rw [h4]
    dsimp only
    rw [sliceFrom_append _ 3 (by decide), Option.map_some',
      show trim (((" - 10.5").toList).drop 3) = ('1') :: ('0') :: ('.') :: ('5') :: [] from
        by decide]
  have hsc : sectionClean? 0 (('1') :: ('0') :: ('.') :: ('5') :: [])
      = some (('1') :: ('0') :: ('.') :: ('5') :: []) := by
    unfold sectionClean?
    simp
  have hA : phaseA? (t ++ (" - 10.5").toList) t 0 (('1') :: ('0') :: ('.') :: ('5') :: [])
      = phaseBC? (t ++ (" - 10.5").toList) t 0 (('1') :: ('0') :: ('.') :: ('5') :: []) := by
    unfold phaseA?
    rw [if_neg (by decide)]
  have hBC : phaseBC? (t ++ (" - 10.5").toList) t 0 (('1') :: ('0') :: ('.') :: ('5') :: [])
      = some { chapter := 5, volume := 0 } := by
    unfold phaseBC?
    simp only [show (((('1') :: ('0') :: ('.') :: ('5') :: []) : RStr).reverse.takeWhile
      Char.isDigit).reverse = ('5') :: [] from by decide]
    rw [if_pos (by decide),
      show parseFloat (('5') :: []) = some (5 : ℚ) from by with_unfolding_all decide]
    dsimp only
    rw [if_neg (fun hcond => hcond.2.1 rfl)]
  unfold parse_chapter_info parse_chapter_info?
  rw [hdec, hlowfull, hcf, hcen, hlow]
  unfold parseCore? truncated?
  rw [h1]
  simp only [htru, htr, hneq, if_false, hvol, hcs, hsc, hA, hBC, Option.getD_some]

/-- Closed witness for C6's amended theorem. -/
theorem fractional_chapter_truncated_witness :
    parse_chapter_info [] ((("bleach").toList) ++ ((" - 10.5.cbz").toList))
      (("bleach").toList) = { chapter := 5, volume := 0 } :=
  fractional_chapter_truncated [] (("bleach").toList) (by decide) (by decide) (by decide)
    (by decide) (by decide) (by decide) (by decide) (by decide) (by decide)

/-- C7.  Volume marker detection, shown on inputs that separate each
claimed behaviour: (i) the parenthesized `"(v"` form is tried before the
bare `" v"` form, so `"x v3y(v2)"` takes volume 2 from `"(v2)"` even
though `" v3"` occurs earlier; (ii) the leftmost `"(v"` occurrence wins
(`"x(v2)(v3)"` gives volume 2); (iii) the leftmost `" v"` occurrence
wins (`"a v01 v02"` gives volume 1); (iv) a candidate whose character
after the `'v'` is not a digit yields no volume (`"x vs"` gives volume
0); (v) the digit run after the marker is ASCII digits only (`"x v1a2"`
gives volume 1, the run stopping at `'a'`). -/
theorem volume_marker_detection :
    parse_chapter_info [] (("x v3y(v2).cbz").toList) (("x").toList)
      = { chapter := 0, volume := 2 } ∧
    parse_chapter_info [] (("x(v2)(v3).cbz").toList) (("q").toList)
      = { chapter := 0, volume := 2 } ∧
    parse_chapter_info [] (("a v01 v02.cbz").toList) (("q").toList)
      = { chapter := 2, volume := 1 } ∧
    parse_chapter_info [] (("x vs.cbz").toList) (("q").toList)
      = { chapter := 0, volume := 0 } ∧
    parse_chapter_info [] (("x v1a2.cbz").toList) (("q").toList)
      = { chapter := 0, volume := 1 } := by
  refine ⟨?f1, ?f2, ?f3, ?f4, ?f5⟩
  · with_unfolding_all decide
  · with_unfolding_all decide
  · with_unfolding_all decide
  · with_unfolding_all decide
  · with_unfolding_all decide

/-! ### Chapter-range bookkeeping of the lib.rs variant -/

theorem libTitlePrefix_range_none {cn cm : RStr} {info : ChapterInfoR}
    (h : libTitlePrefix cn cm = some info) : info.chapter_range = none := by
  unfold libTitlePrefix at h
  split_ifs at h
  split at h
  · rw [← Option.some.inj h]
  · exact absurd h (by simp)

theorem libVolume_range_none {cn : RStr} {info : ChapterInfoR}
    (h : libVolume cn = some info) : info.chapter_range = none := by
  unfold libVolume at h
  split at h
  · split_ifs at h
    split at h
    · rw [← Option.some.inj h]
    · exact absurd h (by simp)
  · exact absurd h (by simp)

theorem libDashC_range {cn : RStr} {info : ChapterInfoR} {st en : ℚ}
    (h : libDashC cn = some info) (hr : info.chapter_range = some (st, en)) :
    info.chapter = st := by
  unfold libDashC at h
  split at h
  · split at h
    · split_ifs at h
      split at h
      · rw [← Option.some.inj h] at hr ⊢
        simp only at hr
        have hpair := (Prod.mk.injEq _ _ _ _).mp (Option.some.inj hr)
        exact hpair.1
      · exact absurd h (by simp)
    · split_ifs at h
      split at h
      · rw [← Option.some.inj h] at hr
        exact absurd hr (by simp)
      · exact absurd h (by simp)
  · exact absurd h (by simp)

theorem libBareC_range_none {cn : RStr} {info : ChapterInfoR}
    (h : libBareC cn = some info) : info.chapter_range = none := by
  unfold libBareC at h
  split at h
  · split_ifs at h
    split at h
    · rw [← Option.some.inj h]
    · exact absurd h (by simp)
  · exact absurd h (by simp)

theorem libTrailing_range_none (cn : RStr) : (libTrailing cn).chapter_range = none := by
  unfold libTrailing
  split_ifs
  · split
    · rfl
    · rfl
  · rfl

theorem libCore_range {cn cm : RStr} {st en : ℚ}
    (h : (libCore cn cm).chapter_range = some (st, en)) : (libCore cn cm).chapter = st := by
  unfold libCore at h ⊢
  split_ifs at h ⊢
  cases hB : libTitlePrefix cn cm with
    | some info =>
      simp only [hB] at h ⊢
      rw [libTitlePrefix_range_none hB] at h
      exact absurd h (by simp)
    | none =>
      simp only [hB] at h ⊢
      cases hV : libVolume cn with
      | some info =>
        simp only [hV] at h ⊢
        rw [libVolume_range_none hV] at h
        exact absurd h (by simp)
      | none =>
        simp only [hV] at h ⊢
        cases hD : libDashC cn with
        | some info =>
          simp only [hD] at h ⊢
          exact libDashC_range hD h
        | none =>
          simp only [hD] at h ⊢
          cases hC : libBareC cn with
          | some info =>
            simp only [hC] at h ⊢
            rw [libBareC_range_none hC] at h
            exact absurd h (by simp)
          | none =>
            simp only [hC] at h ⊢
            cases hS : scanDigitsLib cn (cn.length + 1) 0 with
            | some num =>
              simp only [hS] at h ⊢
              exact absurd h (by simp)
            | none =>
              simp only [hS] at h ⊢
              rw [libTrailing_range_none cn] at h
              exact absurd h (by simp)

/-- C4, counterexample.  A title containing a `" v"` marker of its own
intercepts the range filename: for the title "x v1", the volume branch
fires first and returns volume 1 with no chapter range at all. -/
theorem chapter_range_counterexample :
    parse_chapter_info_lib (("x v1 - c001-007.cbz").toList) (("x v1").toList)
      = { chapter := 0, volume := 1, chapter_range := none } ∧
    (none : Option (ℚ × ℚ)) ≠ some (1, 7) := by
  constructor
  · with_unfolding_all decide
  · simp

/-- C4, amended.  (i) For titles with no `" v"` occurrence and whose
first `" - c"` occurrence is the explicit marker, the parse of
`"<title> - c001-007.cbz"` yields `chapter_range = some (1, 7)` with
`chapter = 1`; (ii) unconditionally, whenever the parser produces a
chapter range, the returned chapter equals the range start. -/
theorem chapter_range_semantics :
    (∀ t : RStr, (∀ c ∈ t, c ≠ '%') → t.map asciiToLower = t → trim t = t → t ≠ [] →
      findSub (t ++ (" - c001-007.cbz").toList) ([' ', 'v']) = none →
      findSub (t ++ (" - c001-007.cbz").toList) ([' ', '-', ' ', 'c']) = some t.length →
      parse_chapter_info_lib (t ++ (" - c001-007.cbz").toList) t
        = { chapter := 1, volume := 0, chapter_range := some (1, 7) }) ∧
    (∀ filename manga_title : RStr, ∀ st en : ℚ,
      (parse_chapter_info_lib filename manga_title).chapter_range = some (st, en) →
      (parse_chapter_info_lib filename manga_title).chapter = st) := by
  constructor
  · intro t hpct hlow htr hne h1 h2
    have hdec : url_decode (t ++ (" - c001-007.cbz").toList)
        = t ++ (" - c001-007.cbz").toList := by
      rw [url_decode_append_no_pct _ hpct,
        show url_decode ((" - c001-007.cbz").toList) = (" - c001-007.cbz").toList from
          by decide]
    have hlowfull : (t ++ (" - c001-007.cbz").toList).map asciiToLower
        = t ++ (" - c001-007.cbz").toList := by
      rw [List.map_append, hlow,
        show ((" - c001-007.cbz").toList).map asciiToLower = (" - c001-007.cbz").toList from
          by decide]
    have htrim : trim (t ++ (" - c001-007.cbz").toList)
        = t ++ (" - c001-007.cbz").toList := by
      rw [show (" - c001-007.cbz").toList = (" - c001-007.cb").toList ++ ['z'] from by decide]
      exact trim_append_sandwich htr hne _ (by decide)
    have hneq : ¬(t ++ (" - c001-007.cbz").toList = t) := by
      intro heq
      have hlen := congrArg List.length heq
      rw [List.length_append] at hlen
      simp at hlen
    have hB : libTitlePrefix (t ++ (" - c001-007.cbz").toList) t = none := by
      unfold libTitlePrefix
      rw [if_pos (isPrefixOf_append_self t _), List.drop_left,
        show trim ((" - c001-007.cbz").toList) = ("- c001-007.cbz").toList from by decide,
        if_neg (by decide)]
    have hV : libVolume (t ++ (" - c001-007.cbz").toList) = none := by
      unfold libVolume
      rw [h1]
    have hD : libDashC (t ++ (" - c001-007.cbz").toList)
        = some { chapter := 1, volume := 0, chapter_range := some (1, 7) } := by
      unfold libDashC
      rw [h2]
      dsimp only
      rw [drop_append_add]
      with_unfolding_all decide
    unfold parse_chapter_info_lib
    rw [hdec, hlowfull, hlow]
    unfold libCore
    rw [htrim, htr, if_neg hneq]
    simp only [hB, hV, hD]
  · intro filename manga_title st en h
    exact libCore_range h

/-- Closed witness for C4's amended theorem. -/
theorem chapter_range_witness :
    parse_chapter_info_lib ((("naruto").toList) ++ ((" - c001-007.cbz").toList))
      (("naruto").toList) = { chapter := 1, volume := 0, chapter_range := some (1, 7) } ∧
    (parse_chapter_info_lib (("x - c003-004.cbz").toList) (("x").toList)).chapter = 3 :=
  ⟨chapter_range_semantics.1 (("naruto").toList) (by decide) (by decide) (by decide)
      (by decide) (by decide) (by decide),
   chapter_range_semantics.2 (("x - c003-004.cbz").toList) (("x").toList) 3 4
      (by with_unfolding_all decide)⟩
